import Mathlib

/-!
Shallow embedding of the Recurrence & Analytics Engine of the
subscription-debt-manager repository, together with proofs checking the
specification's claims against it.

Sources embedded:
* `src/hooks/useAnalytics.js` — `calculateMonthlyRate`,
  `calculateRenewalsInNext12Months`, `totalMonthlyCost`, `totalDebt12Months`,
  `cancellationDebt`, `categoryBreakdown`, `upcomingRenewals`,
  `monthlyTrendData`.
* the analytics component file — `calculateForecast`.

Modelling conventions:
* JS numbers are embedded as rationals (`ℚ`).
* A JS `Date` is embedded as its day number (days since 1970-01-01, an `Int`);
  all the date arithmetic of the source adds whole multiples of
  24*60*60*1000 ms to dates at day granularity, so this is exact.
* An unparseable date (JS `Invalid Date`, internally `NaN`) is embedded as
  `none : Option Int`; every comparison against it is false, exactly as every
  comparison against `NaN` is false in JS.
* `new Date(y, m, d)` with out-of-range month or day is normalised by JS; the
  function `mkDate` below reproduces that normalisation through the standard
  civil-calendar conversion (proleptic Gregorian, as used by JS dates).
* `Number.prototype.toFixed(2)` followed by `parseFloat` is embedded as
  rounding to two decimal places (`round2`).
-/

/-- A subscription record, with the fields the analytics engine reads.
`category = ""` plays the role of a falsy (missing) category. -/
structure Subscription where
  cost : ℚ
  billingCycle : String
  nextRenewalDate : Option Int
  category : String
  isAwaitingCancellation : Bool
deriving DecidableEq, Repr

/-- `calculateMonthlyRate` from `useAnalytics.js` (lines 9–20): the switch on
`billingCycle`, whose default branch returns `cost` unchanged. -/
def calculateMonthlyRate (cost : ℚ) (billingCycle : String) : ℚ :=
  if billingCycle = "Monthly" then cost
  else if billingCycle = "Quarterly" then cost / 3
  else if billingCycle = "Annually" then cost / 12
  else cost

/-- The `cycleInDays` selection appearing in `calculateRenewalsInNext12Months`
(lines 29–34) and again in `monthlyTrendData` (lines 144–149): Monthly → 30,
Quarterly → 90, anything else → 365. -/
def cycleInDays (billingCycle : String) : Nat :=
  if billingCycle = "Monthly" then 30
  else if billingCycle = "Quarterly" then 90
  else 365

/-- The renewal-walk loop shared by `calculateRenewalsInNext12Months`
(lines 36–41) and the per-month loop of `monthlyTrendData` (lines 163–171):
starting at `anchor`, step forward by `c` days while the running date is
`≤ we`, counting the visited dates that are `≥ ws` (the loop guard already
makes every visited date `≤ we`, so the month loop's second conjunct is
implied).  The source only ever calls this with `c ∈ {30, 90, 365}`; the
`c = 0` guard is a termination guard for a case the source never reaches. -/
def occWalk (ws we : Int) (c : Nat) (anchor : Int) : Nat :=
  if h0 : c = 0 then 0
  else if h1 : anchor ≤ we then
    (if ws ≤ anchor then 1 else 0) + occWalk ws we c (anchor + c)
  else 0
termination_by (we + 1 - anchor).toNat
decreasing_by
  omega

/-- `calculateRenewalsInNext12Months` from `useAnalytics.js` (lines 22–44),
with the reference date (`new Date()` in the source) made an explicit
parameter.  The window is `[today, today + 365 days]`.  An invalid renewal
date makes the loop guard false at once, so the count is 0. -/
def calculateRenewalsInNext12Months (today : Int) (nextRenewalDate : Option Int)
    (billingCycle : String) : Nat :=
  match nextRenewalDate with
  | none => 0
  | some renewalDate => occWalk today (today + 365) (cycleInDays billingCycle) renewalDate

/-- `totalMonthlyCost` from `useAnalytics.js` (lines 47–51): a reduce over the
whole subscription list — there is no cancellation filter in the source. -/
def totalMonthlyCost (subs : List Subscription) : ℚ :=
  subs.foldl (fun total sub => total + calculateMonthlyRate sub.cost sub.billingCycle) 0

/-- `totalDebt12Months` from `useAnalytics.js` (lines 54–64). -/
def totalDebt12Months (today : Int) (subs : List Subscription) : ℚ :=
  (subs.filter fun sub => !sub.isAwaitingCancellation).foldl
    (fun total sub =>
      total + (calculateRenewalsInNext12Months today sub.nextRenewalDate sub.billingCycle : ℚ)
        * sub.cost) 0

/-- `cancellationDebt` from `useAnalytics.js` (lines 67–77). -/
def cancellationDebt (today : Int) (subs : List Subscription) : ℚ :=
  (subs.filter fun sub => sub.isAwaitingCancellation).foldl
    (fun total sub =>
      total + (calculateRenewalsInNext12Months today sub.nextRenewalDate sub.billingCycle : ℚ)
        * sub.cost) 0

/-- `sub.category || 'Uncategorized'` (line 84). -/
def categoryName (sub : Subscription) : String :=
  if sub.category = "" then "Uncategorized" else sub.category

/-- Rounding to two decimal places: the model of
`parseFloat(x.toFixed(2))` (lines 96 and 196). -/
def round2 (q : ℚ) : ℚ :=
  (round (q * 100) : ℤ) / 100

/-- One `categoryMap[category] += monthlyCost` step (lines 87–90) on the
category map, represented as an association list in key-insertion order. -/
def addToCatMap : List (String × ℚ) → String → ℚ → List (String × ℚ)
  | [], name, v => [(name, v)]
  | (n, x) :: rest, name, v =>
      if n = name then (n, x + v) :: rest else (n, x) :: addToCatMap rest name v

/-- The `categoryMap` accumulation loop of `categoryBreakdown`
(lines 81–91): a fold over the whole subscription list — no cancellation
filter in the source. -/
def catMap (subs : List Subscription) : List (String × ℚ) :=
  subs.foldl
    (fun m sub => addToCatMap m (categoryName sub)
      (calculateMonthlyRate sub.cost sub.billingCycle)) []

/-- `categoryBreakdown` from `useAnalytics.js` (lines 80–99):
`Object.entries(categoryMap)`, each value rounded to 2 decimals, sorted
descending by value (`(a, b) => b.value - a.value`; JS sort is stable). -/
def categoryBreakdown (subs : List Subscription) : List (String × ℚ) :=
  (((catMap subs).map fun p => (p.1, round2 p.2)).mergeSort fun a b => decide (b.2 ≤ a.2))

/-- `upcomingRenewals` from `useAnalytics.js` (lines 114–128): filter to the
subscriptions whose renewal date lies in `[today, today + 30 days]` and are
not awaiting cancellation (an invalid date fails both comparisons), then sort
ascending by renewal date. -/
def upcomingRenewals (today : Int) (subs : List Subscription) : List Subscription :=
  ((subs.filter fun sub =>
      match sub.nextRenewalDate with
      | none => false
      | some d => decide (today ≤ d) && decide (d ≤ today + 30) && !sub.isAwaitingCancellation)
    ).mergeSort fun a b =>
      decide ((a.nextRenewalDate.getD 0) ≤ (b.nextRenewalDate.getD 0))

/-- Day number (days since 1970-01-01) of the civil date `y-m-d` with
`m ∈ 1..12`, in the proleptic Gregorian calendar (the calendar of JS dates);
the standard era/year-of-era conversion. -/
def daysFromCivil (y m d : Int) : Int :=
  let yy := if m ≤ 2 then y - 1 else y
  let era := yy.ediv 400
  let yoe := yy - era * 400
  let mp := (m + 9).emod 12
  let doy := (153 * mp + 2).ediv 5 + d - 1
  let doe := yoe * 365 + yoe.ediv 4 - yoe.ediv 100 + doy
  era * 146097 + doe - 719468

/-- Inverse of `daysFromCivil`: the civil date `(year, month, day)` of a day
number, with `month ∈ 1..12`. -/
def civilFromDays (z : Int) : Int × Int × Int :=
  let z' := z + 719468
  let era := z'.ediv 146097
  let doe := z' - era * 146097
  let yoe := (doe - doe.ediv 1460 + doe.ediv 36524 - doe.ediv 146096).ediv 365
  let y := yoe + era * 400
  let doy := doe - (365 * yoe + yoe.ediv 4 - yoe.ediv 100)
  let mp := (5 * doy + 2).ediv 153
  let d := doy - (153 * mp + 2).ediv 5 + 1
  let m := mp + (if mp < 10 then 3 else -9)
  (if m ≤ 2 then y + 1 else y, m, d)

/-- `new Date(y, mo, d).getTime()` at day granularity, with `mo` 0-indexed and
`mo`, `d` arbitrary integers, normalised the way JS normalises them: the date
is the first day of the normalised month plus `d - 1` days (so `d = 0` is the
last day of the previous month). -/
def mkDate (y mo d : Int) : Int :=
  daysFromCivil (y + mo.ediv 12) (mo.emod 12 + 1) 1 + (d - 1)

/-- `Date.prototype.getFullYear` of a day number. -/
def getYear (z : Int) : Int :=
  (civilFromDays z).1

/-- `Date.prototype.getMonth` of a day number (0-indexed, as in JS). -/
def getMonth0 (z : Int) : Int :=
  (civilFromDays z).2.1 - 1

/-- Last day of the (0-indexed, possibly unnormalised) month `m0` of year `y`:
the day before the first day of the following month. -/
def endOfMonth (y m0 : Int) : Int :=
  mkDate y (m0 + 1) 0

/-- The renewal walk of one subscription inside the trend month whose
(possibly unnormalised, 0-indexed) year/month is `(my, mm)` — the inner
`while` loop of `monthlyTrendData` (lines 142–171).  `monthStart` and
`monthEnd` are built from the normalised year and month of the first day of
the month, as the source builds them from `monthDate`.  An invalid renewal
date makes the loop guard false at once. -/
def renewalsInTrendMonth (sub : Subscription) (my mm : Int) : Nat :=
  let monthDate := mkDate my mm 1
  let monthStart := mkDate (getYear monthDate) (getMonth0 monthDate) 1
  let monthEnd := mkDate (getYear monthDate) (getMonth0 monthDate + 1) 0
  match sub.nextRenewalDate with
  | none => 0
  | some renewalDate => occWalk monthStart monthEnd (cycleInDays sub.billingCycle) renewalDate

/-- The per-subscription contribution `monthSubCost` to one trend month
(lines 173–189 of `useAnalytics.js`): the walk count times raw cost when the
walk finds an occurrence, otherwise the pro-rated fallback.  The Quarterly
fallback condition is `monthDate <= new Date(renewalYear, renewalMonth + 3, 0)`
and the Annually condition compares `getFullYear` values; with an invalid
renewal date both conditions are false (NaN semantics), while the Monthly
fallback needs no date at all. -/
def monthSubCost (sub : Subscription) (my mm : Int) : ℚ :=
  let monthDate := mkDate my mm 1
  let renewalsInMonth := renewalsInTrendMonth sub my mm
  if renewalsInMonth > 0 then sub.cost * renewalsInMonth
  else if sub.billingCycle = "Monthly" then sub.cost
  else if sub.billingCycle = "Quarterly" &&
      (match sub.nextRenewalDate with
       | none => false
       | some renewalDate =>
           decide (monthDate ≤ mkDate (getYear renewalDate) (getMonth0 renewalDate + 3) 0))
    then sub.cost / 3
  else if sub.billingCycle = "Annually" &&
      (match sub.nextRenewalDate with
       | none => false
       | some renewalDate => decide (getYear monthDate = getYear renewalDate))
    then sub.cost / 12
  else 0

/-- `monthlyTrendData` from `useAnalytics.js` (lines 131–201): 12 entries, one
per calendar month starting at the reference month `(ty, tm)`; each month's
cost is the sum of the per-subscription contributions, rounded to 2 decimals.
The locale month label is an opaque parameter. -/
def monthlyTrendData (monthLabel : Int → Int → String) (ty tm : Int)
    (subs : List Subscription) : List (String × ℚ) :=
  (List.range 12).map fun i =>
    (monthLabel ty (tm + i),
     round2 (subs.foldl (fun total sub => total + monthSubCost sub ty (tm + i)) 0))

/-- One point of the trend series consumed by the forecaster. -/
structure TrendPoint where
  month : String
  cost : ℚ
deriving DecidableEq, Repr

/-- One point of the forecaster's output series. -/
structure ForecastPoint where
  month : String
  actualSpending : Option ℚ
  forecastSpending : Option ℚ
deriving DecidableEq, Repr

/-- The delta accumulation of `calculateForecast`'s `reduce`: the sum of
`arr[i] - arr[i-1]` over `i ≥ 1`. -/
def deltaSum : List ℚ → ℚ
  | [] => 0
  | [_] => 0
  | a :: b :: rest => (b - a) + deltaSum (b :: rest)

/-- `calculateForecast` from the analytics component (`EnhancedAnalytics`):
fewer than 3 trend points returns them unchanged with a null forecast field;
otherwise the average of the sequential deltas of the last 3 points is added
`i` times to the last cost, rounded to 2 decimals, for the 3 appended
forecast points.  The locale label of a future month is an opaque
parameter. -/
def calculateForecast (futureLabel : Nat → String) (trend : List TrendPoint) :
    List ForecastPoint :=
  if trend.length < 3 then
    trend.map fun item =>
      { month := item.month, actualSpending := some item.cost, forecastSpending := none }
  else
    let recent := trend.drop (trend.length - 3)
    let avgChange := deltaSum (recent.map (·.cost)) / ((recent.length - 1 : Nat) : ℚ)
    let lastCost := (trend.getLast?.map (·.cost)).getD 0
    let actualData := trend.map fun item =>
      ({ month := item.month, actualSpending := some item.cost, forecastSpending := none } :
        ForecastPoint)
    let fc := (List.range 3).map fun j =>
      ({ month := futureLabel (j + 1), actualSpending := none,
         forecastSpending := some (round2 (lastCost + avgChange * (j + 1 : Nat))) } :
        ForecastPoint)
    actualData ++ fc

/-! ### Claim-side (specification) definitions -/

/-- Specification-side reading of the claim on `totalMonthlyCost`: the sum of
monthly-equivalent rates over exactly the subscriptions with
`isAwaitingCancellation` false. -/
def activeMonthlyRateSum (subs : List Subscription) : ℚ :=
  ((subs.filter fun sub => !sub.isAwaitingCancellation).map
    fun sub => calculateMonthlyRate sub.cost sub.billingCycle).sum

/-- Specification-side reading of the claim on `categoryBreakdown`: the same
pipeline but computed from exactly the subscriptions with
`isAwaitingCancellation` false. -/
def specCategoryBreakdownActive (subs : List Subscription) : List (String × ℚ) :=
  categoryBreakdown (subs.filter fun sub => !sub.isAwaitingCancellation)

/-- The monthly-equivalent total of the subscriptions of `subs` whose
(defaulted) category is `c`. -/
def categoryRateSum (subs : List Subscription) (c : String) : ℚ :=
  ((subs.filter fun sub => categoryName sub = c).map
    fun sub => calculateMonthlyRate sub.cost sub.billingCycle).sum

/-- Lookup in the category map (JS property access `categoryMap[category]`). -/
def lookupCat : List (String × ℚ) → String → Option ℚ
  | [], _ => none
  | (n, x) :: rest, c => if n = c then some x else lookupCat rest c

/-- Specification-side reading of C6 (amended with the 2-decimal rounding the
code applies): fewer than 3 points pass through unchanged with a null
forecast; otherwise the three appended points carry
`round2 (lastCost + avgDelta * i)` for `i ∈ 1..3`, where `avgDelta` is the
average `((p2 - p1) + (p1 - p0)) / 2` of the sequential deltas of the last
three points `p0, p1, p2`. -/
def forecastSpec (futureLabel : Nat → String) (trend : List TrendPoint) :
    List ForecastPoint :=
  if trend.length < 3 then
    trend.map fun item =>
      { month := item.month, actualSpending := some item.cost, forecastSpending := none }
  else
    let n := trend.length
    let costAt := fun k : Nat => ((trend[k]?).map TrendPoint.cost).getD 0
    let avgDelta := ((costAt (n - 1) - costAt (n - 2)) + (costAt (n - 2) - costAt (n - 3))) / 2
    let lastCost := costAt (n - 1)
    (trend.map fun item =>
      ({ month := item.month, actualSpending := some item.cost, forecastSpending := none } :
        ForecastPoint)) ++
    ((List.range 3).map fun j =>
      ({ month := futureLabel (j + 1), actualSpending := none,
         forecastSpending := some (round2 (lastCost + avgDelta * (j + 1 : Nat))) } :
        ForecastPoint))

/-! ### Helper lemmas -/

theorem foldl_add_extract (f : Subscription → ℚ) :
    ∀ (l : List Subscription) (a : ℚ),
      l.foldl (fun t x => t + f x) a = a + (l.map f).sum := by
  intro l
  induction l with
  | nil => intro a; simp
  | cons x xs ih =>
      intro a
      simp only [List.foldl_cons, List.map_cons, List.sum_cons, ih (a + f x)]
      ring

theorem cycleInDays_pos (cy : String) : 0 < cycleInDays cy := by
  unfold cycleInDays
  split
  · norm_num
  · split <;> norm_num

theorem occWalk_eq_card (ws we : Int) (c : Nat) (hc : 0 < c) :
    ∀ (N : Nat) (anchor : Int), we < anchor + N * c →
      occWalk ws we c anchor =
        ((Finset.range N).filter fun k : Nat =>
          ws ≤ anchor + (k : Int) * (c : Int) ∧ anchor + (k : Int) * (c : Int) ≤ we).card := by
  intro N
  induction N with
  | zero =>
      intro anchor h
      rw [occWalk]
      have hawe : ¬ anchor ≤ we := by
        push_cast at h
        omega
      rw [dif_neg (by omega), dif_neg hawe]
      simp
  | succ n ih =>
      intro anchor h
      rw [occWalk, dif_neg (by omega : ¬ c = 0)]
      by_cases ha : anchor ≤ we
      · rw [dif_pos ha]
        have hstep : we < (anchor + c) + (n : Int) * (c : Int) := by
          push_cast at h
          nlinarith [h]
        rw [ih (anchor + c) hstep]
        rw [Finset.card_filter, Finset.card_filter, Finset.sum_range_succ']
        have h0 : (if ws ≤ anchor + ((0 : Nat) : Int) * (c : Int) ∧
              anchor + ((0 : Nat) : Int) * (c : Int) ≤ we then 1 else 0)
            = (if ws ≤ anchor then 1 else 0) := by
          simp [ha]
        have hshift : ∀ k : Nat,
            (if ws ≤ anchor + ((k + 1 : Nat) : Int) * (c : Int) ∧
                anchor + ((k + 1 : Nat) : Int) * (c : Int) ≤ we then 1 else 0)
              = (if ws ≤ (anchor + c) + (k : Int) * (c : Int) ∧
                  (anchor + c) + (k : Int) * (c : Int) ≤ we then 1 else 0) := by
          intro k
          have harith : anchor + ((k + 1 : Nat) : Int) * (c : Int)
              = (anchor + c) + (k : Int) * (c : Int) := by
            push_cast
            ring
          rw [harith]
        simp only [hshift, h0]
        exact Nat.add_comm _ _
      · rw [dif_neg ha]
        symm
        rw [Finset.card_eq_zero, Finset.filter_eq_empty_iff]
        intro k _
        have hk : (0 : Int) ≤ (k : Int) * (c : Int) :=
          mul_nonneg (Int.natCast_nonneg k) (Int.natCast_nonneg c)
        omega

/-! ### Claim C1 -/

/-- C1 as stated is false on the code: `totalMonthlyCost` has no cancellation
filter, so a subscription flagged as awaiting cancellation still contributes
its monthly rate.  For one Monthly subscription of cost 12 with
`isAwaitingCancellation = true`, the code returns 12 while the claimed
active-only sum is 0. -/
theorem totalMonthlyCost_claim_counterexample :
    totalMonthlyCost [⟨12, "Monthly", some 0, "X", true⟩] = 12 ∧
    activeMonthlyRateSum [⟨12, "Monthly", some 0, "X", true⟩] = 0 ∧
    totalMonthlyCost [⟨12, "Monthly", some 0, "X", true⟩] ≠
      activeMonthlyRateSum [⟨12, "Monthly", some 0, "X", true⟩] := by
  refine ⟨?_, ?_, ?_⟩ <;>
    norm_num [totalMonthlyCost, activeMonthlyRateSum, calculateMonthlyRate]

/-- C1 amended: `totalMonthlyCost` is the sum of the monthly-equivalent rates
over ALL subscriptions — subscriptions awaiting cancellation are included,
not excluded. -/
theorem totalMonthlyCost_sums_all_subscriptions (subs : List Subscription) :
    totalMonthlyCost subs =
      (subs.map fun sub => calculateMonthlyRate sub.cost sub.billingCycle).sum := by
  unfold totalMonthlyCost
  rw [foldl_add_extract]
  ring

/-! ### Claim C3 -/

/-- C3: `totalDebt12Months` is the sum, over exactly the subscriptions with
`isAwaitingCancellation` false, of the number of projected renewal
occurrences in the window `[today, today + 365]` times the RAW cost (not the
monthly-equivalent rate), and `cancellationDebt` is the same formula over the
subscriptions with `isAwaitingCancellation` true. -/
theorem debt_partition_occurrences_times_raw_cost (today : Int) (subs : List Subscription) :
    totalDebt12Months today subs =
      ((subs.filter fun sub => !sub.isAwaitingCancellation).map
        fun sub =>
          (calculateRenewalsInNext12Months today sub.nextRenewalDate sub.billingCycle : ℚ)
            * sub.cost).sum ∧
    cancellationDebt today subs =
      ((subs.filter fun sub => sub.isAwaitingCancellation).map
        fun sub =>
          (calculateRenewalsInNext12Months today sub.nextRenewalDate sub.billingCycle : ℚ)
            * sub.cost).sum := by
  constructor
  · unfold totalDebt12Months
    rw [foldl_add_extract]
    ring
  · unfold cancellationDebt
    rw [foldl_add_extract]
    ring

/-! ### Claim C8 -/

/-- C8: the billing normalizer returns `cost` for Monthly, `cost / 3` for
Quarterly, `cost / 12` for Annually, and `cost` (Monthly behaviour, no error
signalled) for every other cycle string; with the three concrete examples of
the spec. -/
theorem calculateMonthlyRate_table :
    (∀ cost : ℚ, calculateMonthlyRate cost "Monthly" = cost) ∧
    (∀ cost : ℚ, calculateMonthlyRate cost "Quarterly" = cost / 3) ∧
    (∀ cost : ℚ, calculateMonthlyRate cost "Annually" = cost / 12) ∧
    (∀ (cost : ℚ) (cy : String), cy ≠ "Monthly" → cy ≠ "Quarterly" → cy ≠ "Annually" →
      calculateMonthlyRate cost cy = cost) ∧
    calculateMonthlyRate 120 "Annually" = 10 ∧
    calculateMonthlyRate 90 "Quarterly" = 30 ∧
    calculateMonthlyRate 50 "Monthly" = 50 := by
  refine ⟨fun cost => by simp [calculateMonthlyRate],
    fun cost => by simp [calculateMonthlyRate],
    fun cost => by simp [calculateMonthlyRate],
    fun cost cy h1 h2 h3 => by simp [calculateMonthlyRate, h1, h2, h3],
    by simp [calculateMonthlyRate]; norm_num,
    by simp [calculateMonthlyRate]; norm_num,
    by simp [calculateMonthlyRate]⟩

/-- Witness for C8, applying the defensive-default clause at the concrete
unknown cycle string "Weekly". -/
theorem calculateMonthlyRate_table_witness :
    calculateMonthlyRate 7 "Weekly" = 7 :=
  calculateMonthlyRate_table.2.2.2.1 7 "Weekly" (by decide) (by decide) (by decide)

/-! ### Claim C4 -/

/-- C4: the occurrence count treats the cycle as a fixed-day-count period
(Monthly = 30, Quarterly = 90, Annually = 365 days); starting at the anchor
and stepping by that period while the running date is ≤ `we`, it counts
exactly the visited dates `anchor + k·period` lying within `[ws, we]`; and an
anchor after the window end yields zero.  The last clause ties
`calculateRenewalsInNext12Months` to this walk on the window
`[today, today + 365]`. -/
theorem occurrence_walk_fixed_day_count :
    cycleInDays "Monthly" = 30 ∧
    cycleInDays "Quarterly" = 90 ∧
    cycleInDays "Annually" = 365 ∧
    (∀ (ws we anchor : Int) (cy : String) (N : Nat),
        we < anchor + (N : Int) * (cycleInDays cy : Int) →
        occWalk ws we (cycleInDays cy) anchor =
          ((Finset.range N).filter fun k : Nat =>
            ws ≤ anchor + (k : Int) * ((cycleInDays cy : Nat) : Int) ∧
            anchor + (k : Int) * ((cycleInDays cy : Nat) : Int) ≤ we).card) ∧
    (∀ (ws we anchor : Int) (cy : String), we < anchor →
        occWalk ws we (cycleInDays cy) anchor = 0) ∧
    (∀ (today a : Int) (cy : String),
        calculateRenewalsInNext12Months today (some a) cy =
          occWalk today (today + 365) (cycleInDays cy) a) := by
  refine ⟨by simp [cycleInDays], by simp [cycleInDays], by simp [cycleInDays], ?_, ?_, ?_⟩
  · intro ws we anchor cy N h
    exact occWalk_eq_card ws we (cycleInDays cy) (cycleInDays_pos cy) N anchor h
  · intro ws we anchor cy h
    rw [occWalk]
    have hc := cycleInDays_pos cy
    rw [dif_neg (by omega), dif_neg (by omega)]
  · intro today a cy
    rfl

/-- Witness for C4: the Monthly walk from anchor 10 over window [0, 100]
matches the closed-form count, and an anchor past the window end gives 0. -/
theorem occurrence_walk_fixed_day_count_witness :
    occWalk 0 100 (cycleInDays "Monthly") 10 =
      ((Finset.range 10).filter fun k : Nat =>
        (0 : Int) ≤ 10 + (k : Int) * ((cycleInDays "Monthly" : Nat) : Int) ∧
        10 + (k : Int) * ((cycleInDays "Monthly" : Nat) : Int) ≤ 100).card ∧
    occWalk 0 100 (cycleInDays "Quarterly") 101 = 0 :=
  ⟨occurrence_walk_fixed_day_count.2.2.2.1 0 100 10 "Monthly" 10
      (by simp [cycleInDays]),
    occurrence_walk_fixed_day_count.2.2.2.2.1 0 100 101 "Quarterly" (by norm_num)⟩

/-! ### Claim C7 -/

/-- C7: the occurrence count is monotone non-decreasing in window length:
widening the window on either side never decreases the count. -/
theorem occWalk_monotone_in_window (cy : String) (anchor ws we ws' we' : Int)
    (hs : ws' ≤ ws) (he : we ≤ we') :
    occWalk ws we (cycleInDays cy) anchor ≤ occWalk ws' we' (cycleInDays cy) anchor := by
  have hcpos := cycleInDays_pos cy
  set c := cycleInDays cy with hcdef
  set N := (we' + 1 - anchor).toNat with hNdef
  have hNge : (we' + 1 - anchor : Int) ≤ (N : Int) := Int.self_le_toNat _
  have hcN : (N : Int) ≤ (N : Int) * (c : Int) := by
    have h1 : (1 : Int) ≤ (c : Int) := by exact_mod_cast hcpos
    nlinarith [Int.natCast_nonneg N]
  have h1 : we' < anchor + (N : Int) * (c : Int) := by omega
  have h2 : we < anchor + (N : Int) * (c : Int) := lt_of_le_of_lt he h1
  rw [occWalk_eq_card ws we c hcpos N anchor h2,
    occWalk_eq_card ws' we' c hcpos N anchor h1]
  apply Finset.card_le_card
  intro k hk
  simp only [Finset.mem_filter, Finset.mem_range] at hk ⊢
  exact ⟨hk.1, by omega, by omega⟩

/-- Witness for C7: widening [5, 50] to [0, 100] for the Quarterly walk from
anchor 0. -/
theorem occWalk_monotone_in_window_witness :
    occWalk 5 50 (cycleInDays "Quarterly") 0 ≤ occWalk 0 100 (cycleInDays "Quarterly") 0 :=
  occWalk_monotone_in_window "Quarterly" 0 5 50 0 100 (by norm_num) (by norm_num)

/-! ### The trend-month fallback (claims C5, C9, C10) -/

theorem occWalk_zero_of_lt (ws we : Int) (c : Nat) (anchor : Int) (h : we < anchor) :
    occWalk ws we c anchor = 0 := by
  rw [occWalk]
  by_cases hc : c = 0
  · rw [dif_pos hc]
  · rw [dif_neg hc, dif_neg (by omega)]

/-- C5 as stated is false on the code: the Quarterly fallback has no lower
bound, so a trend month far BEFORE the anchor still receives `cost / 3`.
Anchor July 1 2025, trend month January 2025 (six months before the anchor,
hence not within 3 months of it): the walk finds zero occurrences, yet the
contribution is `30 / 3 ≠ 0`, where the claim's "otherwise" clause demands
0. -/
theorem monthSubCost_quarterly_far_before_counterexample :
    renewalsInTrendMonth ⟨30, "Quarterly", some (mkDate 2025 6 1), "A", false⟩ 2025 0 = 0 ∧
    monthSubCost ⟨30, "Quarterly", some (mkDate 2025 6 1), "A", false⟩ 2025 0 = 30 / 3 ∧
    ((30 : ℚ) / 3) ≠ 0 := by
  have h0 : renewalsInTrendMonth ⟨30, "Quarterly", some (mkDate 2025 6 1), "A", false⟩ 2025 0
      = 0 := by
    simp only [renewalsInTrendMonth]
    exact occWalk_zero_of_lt _ _ _ _ (by decide)
  refine ⟨h0, ?_, by norm_num⟩
  have e1 : mkDate 2025 0 1 = 20089 := by decide
  have e2 : mkDate (getYear (mkDate 2025 6 1)) (getMonth0 (mkDate 2025 6 1) + 3) 0
      = 20361 := by decide
  simp only [monthSubCost, h0, e1, e2]
  simp

/-- C5 amended: when the fixed-day walk finds zero occurrences in the trend
month, the fallback contribution is: full `cost` for a Monthly cycle
(regardless of the renewal date, even an invalid one); `cost / 3` for a
Quarterly cycle when the first day of the month is on or before the last day
of the SECOND calendar month after the anchor's month — with no lower bound,
so months arbitrarily far before the anchor also qualify; `cost / 12` for an
Annually cycle when the month's calendar year equals the anchor's; otherwise
0.  With an invalid renewal date the Quarterly and Annually conditions are
false. -/
theorem monthSubCost_fallback (sub : Subscription) (my mm : Int)
    (h0 : renewalsInTrendMonth sub my mm = 0) :
    monthSubCost sub my mm =
      match sub.nextRenewalDate with
      | none => if sub.billingCycle = "Monthly" then sub.cost else 0
      | some a =>
          if sub.billingCycle = "Monthly" then sub.cost
          else if sub.billingCycle = "Quarterly" then
            (if mkDate my mm 1 ≤ endOfMonth (getYear a) (getMonth0 a + 2) then sub.cost / 3
              else 0)
          else if sub.billingCycle = "Annually" then
            (if getYear (mkDate my mm 1) = getYear a then sub.cost / 12 else 0)
          else 0 := by
  have hcut : ∀ a : Int, endOfMonth (getYear a) (getMonth0 a + 2)
      = mkDate (getYear a) (getMonth0 a + 3) 0 := by
    intro a
    have harith : getMonth0 a + 2 + 1 = getMonth0 a + 3 := by ring
    rw [endOfMonth, harith]
  rcases hdate : sub.nextRenewalDate with _ | a
  · simp only [monthSubCost, h0, hdate]
    simp
  · simp only [monthSubCost, h0, hdate, hcut a]
    by_cases hM : sub.billingCycle = "Monthly"
    · simp [hM]
    · by_cases hQ : sub.billingCycle = "Quarterly"
      · by_cases hle : mkDate my mm 1 ≤ mkDate (getYear a) (getMonth0 a + 3) 0
        · simp [hM, hQ, hle]
        · simp [hM, hQ, hle]
      · by_cases hA : sub.billingCycle = "Annually"
        · by_cases hy : getYear (mkDate my mm 1) = getYear a
          · simp [hM, hQ, hA, hy]
          · simp [hM, hQ, hA, hy]
        · simp [hM, hQ, hA]

/-- Witness for C5: an Annually subscription anchored March 15 2025, trend
month January 2026 — zero walk occurrences, different calendar year, so the
fallback contributes 0. -/
theorem monthSubCost_fallback_witness :
    monthSubCost ⟨9, "Annually", some (mkDate 2025 2 15), "A", false⟩ 2026 0 = 0 := by
  have h0 : renewalsInTrendMonth ⟨9, "Annually", some (mkDate 2025 2 15), "A", false⟩ 2026 0
      = 0 := by
    simp only [renewalsInTrendMonth]
    rw [occWalk_eq_card _ _ _ (by simp [cycleInDays]) 2 _ (by decide)]
    decide
  rw [monthSubCost_fallback ⟨9, "Annually", some (mkDate 2025 2 15), "A", false⟩ 2026 0 h0]
  have hy : getYear (mkDate 2026 0 1) = 2026 := by decide
  have hy2 : getYear (mkDate 2025 2 15) = 2025 := by decide
  simp [hy, hy2]

/-- C10 as stated is false on the code: the Quarterly cutoff in the source is
`new Date(anchorYear, anchorMonth + 3, 0)`, i.e. the last day of the SECOND
calendar month after the anchor's month, not of the third.  Anchor
January 1 2024, trend month April 2024: April 1 is on or before April 30
(the last day of the third calendar month after January), the walk finds
zero occurrences, yet the contribution is 0 rather than `30 / 3`. -/
theorem monthSubCost_quarterly_cutoff_counterexample :
    renewalsInTrendMonth ⟨30, "Quarterly", some (mkDate 2024 0 1), "A", false⟩ 2024 3 = 0 ∧
    mkDate 2024 3 1 ≤ endOfMonth (getYear (mkDate 2024 0 1))
      (getMonth0 (mkDate 2024 0 1) + 3) ∧
    monthSubCost ⟨30, "Quarterly", some (mkDate 2024 0 1), "A", false⟩ 2024 3 = 0 ∧
    ((30 : ℚ) / 3) ≠ 0 := by
  have h0 : renewalsInTrendMonth ⟨30, "Quarterly", some (mkDate 2024 0 1), "A", false⟩ 2024 3
      = 0 := by
    simp only [renewalsInTrendMonth]
    rw [occWalk_eq_card _ _ _ (by simp [cycleInDays]) 3 _ (by decide)]
    decide
  refine ⟨h0, by decide, ?_, by norm_num⟩
  have e1 : mkDate 2024 3 1 = 19814 := by decide
  have e2 : mkDate (getYear (mkDate 2024 0 1)) (getMonth0 (mkDate 2024 0 1) + 3) 0
      = 19813 := by decide
  simp only [monthSubCost, h0, e1, e2]
  simp

/-- C10 amended: for a Quarterly subscription with a valid anchor and zero
walk occurrences in the trend month, the contribution is `cost / 3` exactly
when the first day of the month is on or before the last day of the SECOND
calendar month after the anchor's month (no lower bound — months arbitrarily
far before the anchor qualify), and 0 only after that cutoff. -/
theorem monthSubCost_quarterly_cutoff (sub : Subscription) (a my mm : Int)
    (hq : sub.billingCycle = "Quarterly") (ha : sub.nextRenewalDate = some a)
    (h0 : renewalsInTrendMonth sub my mm = 0) :
    monthSubCost sub my mm =
      if mkDate my mm 1 ≤ endOfMonth (getYear a) (getMonth0 a + 2) then sub.cost / 3
      else 0 := by
  have harith : getMonth0 a + 2 + 1 = getMonth0 a + 3 := by ring
  simp only [monthSubCost, h0, ha, hq, endOfMonth, harith]
  by_cases hle : mkDate my mm 1 ≤ mkDate (getYear a) (getMonth0 a + 3) 0
  · simp [hle]
  · simp [hle]

/-- Witness for C10: a Quarterly subscription anchored September 10 2025 and
the trend month January 2024, twenty months BEFORE the anchor: the cutoff
condition holds (there is no lower bound), so the month receives
`21 / 3 = 7`. -/
theorem monthSubCost_quarterly_cutoff_witness :
    monthSubCost ⟨21, "Quarterly", some (mkDate 2025 8 10), "A", false⟩ 2024 0 = 21 / 3 := by
  have h0 : renewalsInTrendMonth ⟨21, "Quarterly", some (mkDate 2025 8 10), "A", false⟩ 2024 0
      = 0 := by
    simp only [renewalsInTrendMonth]
    exact occWalk_zero_of_lt _ _ _ _ (by decide)
  rw [monthSubCost_quarterly_cutoff ⟨21, "Quarterly", some (mkDate 2025 8 10), "A", false⟩
    (mkDate 2025 8 10) 2024 0 rfl rfl h0]
  rw [if_pos (by decide)]

/-! ### Claim C9 -/

/-- C9 as stated is false on the code: a Monthly subscription with an
unparseable renewal date is NOT excluded from `monthlyTrendData` — the
Monthly fallback branch needs no date and contributes the full cost to every
trend month. -/
theorem invalid_date_monthly_trend_counterexample :
    monthSubCost ⟨5, "Monthly", none, "A", false⟩ 2025 0 = 5 ∧ (5 : ℚ) ≠ 0 := by
  constructor
  · simp only [monthSubCost, renewalsInTrendMonth]
    simp
  · norm_num

/-- C9 amended: a subscription whose `nextRenewalDate` is unparseable is
excluded without error from the 12-month occurrence walk (count 0) and from
`upcomingRenewals`, and contributes nothing to a trend month when its cycle
is not Monthly — but a Monthly-cycle subscription still contributes its full
cost to every trend month through the fallback. -/
theorem invalid_date_excluded_from_window_aggregates (s : Subscription)
    (hs : s.nextRenewalDate = none) :
    (∀ today : Int,
        calculateRenewalsInNext12Months today s.nextRenewalDate s.billingCycle = 0) ∧
    (∀ (today : Int) (subs : List Subscription), s ∉ upcomingRenewals today subs) ∧
    (∀ my mm : Int,
        monthSubCost s my mm = if s.billingCycle = "Monthly" then s.cost else 0) := by
  refine ⟨?_, ?_, ?_⟩
  · intro today
    rw [hs]
    rfl
  · intro today subs hmem
    have h2 : s ∈ subs.filter fun sub =>
        match sub.nextRenewalDate with
        | none => false
        | some d =>
            decide (today ≤ d) && decide (d ≤ today + 30) && !sub.isAwaitingCancellation :=
      ((List.mergeSort_perm _ _).mem_iff).mp hmem
    rw [List.mem_filter, hs] at h2
    simp at h2
  · intro my mm
    have h0 : renewalsInTrendMonth s my mm = 0 := by
      simp only [renewalsInTrendMonth, hs]
    simp only [monthSubCost, h0, hs]
    by_cases hM : s.billingCycle = "Monthly"
    · simp [hM]
    · simp [hM]

/-- Witness for C9 at a Quarterly subscription with an invalid date. -/
theorem invalid_date_excluded_witness :
    calculateRenewalsInNext12Months 0
        (Subscription.nextRenewalDate ⟨4, "Quarterly", none, "C", false⟩) "Quarterly" = 0 ∧
    (⟨4, "Quarterly", none, "C", false⟩ : Subscription) ∉
      upcomingRenewals 0 [⟨4, "Quarterly", none, "C", false⟩] ∧
    monthSubCost ⟨4, "Quarterly", none, "C", false⟩ 2025 0 = 0 := by
  have h := invalid_date_excluded_from_window_aggregates
    ⟨4, "Quarterly", none, "C", false⟩ rfl
  refine ⟨h.1 0, h.2.1 0 [⟨4, "Quarterly", none, "C", false⟩], ?_⟩
  rw [h.2.2 2025 0]
  simp

/-! ### Claim C2 -/

theorem mem_keys_iff_lookup_isSome (m : List (String × ℚ)) (c : String) :
    c ∈ m.map Prod.fst ↔ (lookupCat m c).isSome := by
  induction m with
  | nil => simp [lookupCat]
  | cons p rest ih =>
      obtain ⟨n, x⟩ := p
      by_cases h : n = c
      · subst h
        simp [lookupCat]
      · simp only [List.map_cons, List.mem_cons, lookupCat, if_neg h]
        constructor
        · rintro (h1 | h2)
          · exact absurd h1.symm h
          · exact ih.mp h2
        · intro h1
          exact Or.inr (ih.mpr h1)

theorem lookupCat_addToCatMap (m : List (String × ℚ)) (name c : String) (v : ℚ) :
    lookupCat (addToCatMap m name v) c =
      if c = name then some ((lookupCat m c).getD 0 + v) else lookupCat m c := by
  induction m with
  | nil =>
      by_cases h : c = name
      · subst h
        simp [addToCatMap, lookupCat]
      · have h2 : ¬ name = c := fun hh => h hh.symm
        simp [addToCatMap, lookupCat, h, h2]
  | cons p rest ih =>
      obtain ⟨n, x⟩ := p
      by_cases hn : n = name
      · subst hn
        by_cases hc : n = c
        · subst hc
          simp [addToCatMap, lookupCat]
        · have h2 : ¬ c = n := fun hh => hc hh.symm
          simp [addToCatMap, lookupCat, hc, h2]
      · by_cases hc : n = c
        · subst hc
          have h2 : ¬ n = name := hn
          simp [addToCatMap, lookupCat, h2]
        · simp only [addToCatMap, if_neg hn, lookupCat, if_neg hc, ih]

theorem keys_addToCatMap (m : List (String × ℚ)) (name : String) (v : ℚ) :
    (addToCatMap m name v).map Prod.fst =
      if name ∈ m.map Prod.fst then m.map Prod.fst else m.map Prod.fst ++ [name] := by
  induction m with
  | nil => simp [addToCatMap]
  | cons p rest ih =>
      obtain ⟨n, x⟩ := p
      by_cases hn : n = name
      · subst hn
        simp [addToCatMap]
      · have h2 : ¬ name = n := fun hh => hn hh.symm
        simp only [addToCatMap, if_neg hn, List.map_cons, ih]
        by_cases hmem : name ∈ rest.map Prod.fst
        · simp [hmem, h2]
        · simp [hmem, h2]

theorem nodup_keys_addToCatMap (m : List (String × ℚ)) (name : String) (v : ℚ)
    (h : (m.map Prod.fst).Nodup) : ((addToCatMap m name v).map Prod.fst).Nodup := by
  rw [keys_addToCatMap]
  by_cases hmem : name ∈ m.map Prod.fst
  · simpa [hmem] using h
  · rw [if_neg hmem]
    rw [List.nodup_append]
    refine ⟨h, by simp, ?_⟩
    intro a ha hb
    simp only [List.mem_singleton] at hb
    subst hb
    exact hmem ha

theorem categoryRateSum_cons (s : Subscription) (rest : List Subscription) (c : String) :
    categoryRateSum (s :: rest) c =
      (if categoryName s = c then calculateMonthlyRate s.cost s.billingCycle else 0)
        + categoryRateSum rest c := by
  unfold categoryRateSum
  rw [List.filter_cons]
  by_cases h : categoryName s = c
  · simp [h]
  · simp [h]

theorem lookupCat_catMap_fold :
    ∀ (subs : List Subscription) (acc : List (String × ℚ)) (c : String),
      lookupCat (subs.foldl (fun m sub => addToCatMap m (categoryName sub)
          (calculateMonthlyRate sub.cost sub.billingCycle)) acc) c =
        if c ∈ subs.map categoryName ∨ (lookupCat acc c).isSome = true
        then some ((lookupCat acc c).getD 0 + categoryRateSum subs c) else none := by
  intro subs
  induction subs with
  | nil =>
      intro acc c
      simp only [List.foldl_nil, List.map_nil, List.not_mem_nil, false_or]
      rcases hl : lookupCat acc c with _ | x
      · simp [categoryRateSum]
      · simp [categoryRateSum]
  | cons s rest ih =>
      intro acc c
      rw [List.foldl_cons, ih, lookupCat_addToCatMap, categoryRateSum_cons]
      by_cases hc : c = categoryName s
      · have hcs : categoryName s = c := hc.symm
        rw [if_pos hc]
        have hmem : c ∈ (s :: rest).map categoryName := by
          rw [List.map_cons, List.mem_cons]
          exact Or.inl hc
        rw [if_pos (Or.inr (by simp)),
          if_pos (show c ∈ List.map categoryName (s :: rest) ∨
            (lookupCat acc c).isSome = true from Or.inl hmem), if_pos hcs]
        simp only [Option.getD_some]
        congr 1
        ring
      · have hcn : ¬ categoryName s = c := fun hh => hc hh.symm
        rw [if_neg hc, if_neg hcn]
        have hmemc : (c ∈ (s :: rest).map categoryName) ↔ (c ∈ rest.map categoryName) := by
          rw [List.map_cons, List.mem_cons]
          constructor
          · rintro (h1 | h2)
            · exact absurd h1.symm hcn
            · exact h2
          · exact Or.inr
        by_cases hcond : c ∈ rest.map categoryName ∨ (lookupCat acc c).isSome = true
        · rw [if_pos hcond, if_pos (by rw [hmemc]; exact hcond.imp_left id)]
          congr 1
          ring
        · rw [if_neg hcond, if_neg (by rw [hmemc]; exact hcond)]

theorem nodup_keys_catMap_fold :
    ∀ (subs : List Subscription) (acc : List (String × ℚ)),
      (acc.map Prod.fst).Nodup →
      ((subs.foldl (fun m sub => addToCatMap m (categoryName sub)
          (calculateMonthlyRate sub.cost sub.billingCycle)) acc).map Prod.fst).Nodup := by
  intro subs
  induction subs with
  | nil => intro acc h; simpa using h
  | cons s rest ih =>
      intro acc h
      rw [List.foldl_cons]
      exact ih _ (nodup_keys_addToCatMap _ _ _ h)

theorem lookupCat_eq_of_mem (m : List (String × ℚ)) (h : (m.map Prod.fst).Nodup)
    (p : String × ℚ) (hp : p ∈ m) : lookupCat m p.1 = some p.2 := by
  induction m with
  | nil => cases hp
  | cons q rest ih =>
      obtain ⟨n, x⟩ := q
      rcases List.mem_cons.mp hp with h1 | h1
      · rw [h1]
        simp [lookupCat]
      · have hn : ¬ n = p.1 := by
          intro hh
          rw [List.map_cons, List.nodup_cons] at h
          exact h.1 (hh ▸ (List.mem_map.mpr ⟨p, h1, rfl⟩))
        rw [lookupCat, if_neg hn]
        rw [List.map_cons, List.nodup_cons] at h
        exact ih h.2 h1

/-- C2 as stated is false on the code: `categoryBreakdown` has no cancellation
filter.  A single awaiting-cancellation Monthly subscription of cost 30 in
category "A" yields `[("A", 30)]`, while the claimed active-only pipeline
yields `[]`. -/
theorem categoryBreakdown_claim_counterexample :
    categoryBreakdown [⟨30, "Monthly", some 0, "A", true⟩] = [("A", 30)] ∧
    specCategoryBreakdownActive [⟨30, "Monthly", some 0, "A", true⟩] = [] ∧
    categoryBreakdown [⟨30, "Monthly", some 0, "A", true⟩] ≠
      specCategoryBreakdownActive [⟨30, "Monthly", some 0, "A", true⟩] := by
  have hround : round2 (30 : ℚ) = 30 := by
    unfold round2
    rw [round_eq]
    norm_num
  have h1 : categoryBreakdown [⟨30, "Monthly", some 0, "A", true⟩] = [("A", 30)] := by
    have hcat : catMap [⟨30, "Monthly", some 0, "A", true⟩] = [("A", 30)] := by
      simp [catMap, addToCatMap, categoryName, calculateMonthlyRate]
    unfold categoryBreakdown
    rw [hcat]
    simp only [List.map_cons, List.map_nil, hround]
    exact List.mergeSort_singleton _
  have h2 : specCategoryBreakdownActive [⟨30, "Monthly", some 0, "A", true⟩] = [] := by
    unfold specCategoryBreakdownActive
    have hfil : ([⟨30, "Monthly", some 0, "A", true⟩] : List Subscription).filter
        (fun sub => !sub.isAwaitingCancellation) = [] := by simp
    rw [hfil]
    unfold categoryBreakdown catMap
    simp only [List.foldl_nil, List.map_nil]
    exact List.mergeSort_nil
  refine ⟨h1, h2, ?_⟩
  rw [h1, h2]
  simp

/-- C2 amended: `categoryBreakdown` is computed from ALL subscriptions (not
just the active ones): its entries carry pairwise-distinct category names,
the names are exactly the (defaulted) category names occurring in the whole
input list, each entry's value is the monthly-equivalent total of ALL
subscriptions of that category rounded to 2 decimals, and the entries are
sorted in descending order of value. -/
theorem categoryBreakdown_grouped_rounded_sorted (subs : List Subscription) :
    List.Pairwise (fun a b : String × ℚ => b.2 ≤ a.2) (categoryBreakdown subs) ∧
    ((categoryBreakdown subs).map Prod.fst).Nodup ∧
    (∀ c : String, c ∈ (categoryBreakdown subs).map Prod.fst ↔ c ∈ subs.map categoryName) ∧
    (∀ p ∈ categoryBreakdown subs, p.2 = round2 (categoryRateSum subs p.1)) := by
  have hcat : catMap subs = subs.foldl (fun m sub => addToCatMap m (categoryName sub)
      (calculateMonthlyRate sub.cost sub.billingCycle)) [] := rfl
  have hnodupcat : ((catMap subs).map Prod.fst).Nodup := by
    rw [hcat]
    exact nodup_keys_catMap_fold subs [] (by simp)
  have hlookup : ∀ c : String, lookupCat (catMap subs) c =
      if c ∈ subs.map categoryName ∨ (lookupCat [] c).isSome = true
      then some ((lookupCat [] c).getD 0 + categoryRateSum subs c) else none := by
    intro c
    rw [hcat]
    exact lookupCat_catMap_fold subs [] c
  have hperm : (categoryBreakdown subs).Perm
      ((catMap subs).map fun p => (p.1, round2 p.2)) := by
    unfold categoryBreakdown
    exact List.mergeSort_perm _ _
  have hkeys : ((catMap subs).map fun p => (p.1, round2 p.2)).map Prod.fst
      = (catMap subs).map Prod.fst := by
    rw [List.map_map]
    rfl
  refine ⟨?_, ?_, ?_, ?_⟩
  · have hs := @List.sorted_mergeSort (String × ℚ)
      (fun a b => decide (b.2 ≤ a.2))
      (fun a b c hab hbc => by
        rw [decide_eq_true_iff] at hab hbc ⊢
        exact le_trans hbc hab)
      (fun a b => by
        rcases le_total a.2 b.2 with h | h
        · simp [h]
        · simp [h])
      ((catMap subs).map fun p => (p.1, round2 p.2))
    have : categoryBreakdown subs = ((catMap subs).map fun p => (p.1, round2 p.2)).mergeSort
        (fun a b : String × ℚ => decide (b.2 ≤ a.2)) := rfl
    rw [this]
    exact hs.imp fun hab => of_decide_eq_true hab
  · rw [((hperm.map Prod.fst).nodup_iff), hkeys]
    exact hnodupcat
  · intro c
    rw [(hperm.map Prod.fst).mem_iff, hkeys, mem_keys_iff_lookup_isSome, hlookup c]
    by_cases hmem : c ∈ subs.map categoryName
    · simp [hmem]
    · simp [hmem, lookupCat]
  · intro p hp
    have hp2 : p ∈ (catMap subs).map fun p => (p.1, round2 p.2) := hperm.mem_iff.mp hp
    obtain ⟨q, hq, hqp⟩ := List.mem_map.mp hp2
    have hlq : lookupCat (catMap subs) q.1 = some q.2 :=
      lookupCat_eq_of_mem (catMap subs) hnodupcat q hq
    rw [hlookup q.1] at hlq
    by_cases hmem : q.1 ∈ subs.map categoryName ∨ (lookupCat [] q.1).isSome = true
    · rw [if_pos hmem] at hlq
      simp only [lookupCat, Option.getD_none, zero_add, Option.some.injEq] at hlq
      rw [← hqp]
      show round2 q.2 = round2 (categoryRateSum subs q.1)
      rw [hlq]
    · rw [if_neg hmem] at hlq
      exact absurd hlq (by simp)

/-- Witness for C2 on a concrete one-subscription list: the entry
`("A", 30)` of the breakdown carries the rounded category total. -/
theorem categoryBreakdown_grouped_rounded_sorted_witness :
    (30 : ℚ) = round2 (categoryRateSum [⟨30, "Monthly", some 0, "A", true⟩] "A") := by
  have hround : round2 (30 : ℚ) = 30 := by
    unfold round2
    rw [round_eq]
    norm_num
  have h1 : categoryBreakdown [⟨30, "Monthly", some 0, "A", true⟩] = [("A", 30)] := by
    have hcat : catMap [⟨30, "Monthly", some 0, "A", true⟩] = [("A", 30)] := by
      simp [catMap, addToCatMap, categoryName, calculateMonthlyRate]
    unfold categoryBreakdown
    rw [hcat]
    simp only [List.map_cons, List.map_nil, hround]
    exact List.mergeSort_singleton _
  exact (categoryBreakdown_grouped_rounded_sorted [⟨30, "Monthly", some 0, "A", true⟩]).2.2.2
    ("A", 30) (by rw [h1]; simp)

/-! ### Claim C6 -/

/-- C6 as stated is false on the code: the appended forecast values are
rounded to 2 decimals, not the raw `lastCost + avgDelta × i`.  On the trend
`[0, 0, 1/1000]` the first appended point stores 0, while
`lastCost + avgDelta × 1 = 3/2000 ≠ 0`. -/
theorem calculateForecast_claim_counterexample :
    ((calculateForecast (fun _ => "") [⟨"a", 0⟩, ⟨"b", 0⟩, ⟨"c", 1/1000⟩])[3]?.map
      ForecastPoint.forecastSpending) = some (some 0) ∧
    (1/1000 : ℚ) + ((((1/1000 : ℚ) - 0) + ((0 : ℚ) - 0)) / 2) * 1 ≠ 0 := by
  constructor
  · have hval : round2 ((1000 : ℚ)⁻¹ + deltaSum [0, 0, (1000 : ℚ)⁻¹] / 2) = 0 := by
      simp only [deltaSum]
      unfold round2
      rw [round_eq]
      norm_num
    simp [calculateForecast, List.range_succ, hval]
  · norm_num

/-- C6 amended: `calculateForecast` agrees with the specification pipeline:
fewer than 3 points are returned unchanged with a null forecast field;
otherwise the original points are emitted with their value as `actual` and a
null forecast, followed by exactly 3 appended points with null `actual` and
forecast value `round2 (lastCost + avgDelta × i)` for `i ∈ 1..3`, where
`avgDelta` averages the two sequential deltas of the last 3 points. -/
theorem calculateForecast_eq_forecastSpec (futureLabel : Nat → String)
    (trend : List TrendPoint) :
    calculateForecast futureLabel trend = forecastSpec futureLabel trend := by
  by_cases h : trend.length < 3
  · unfold calculateForecast forecastSpec
    rw [if_pos h, if_pos h]
  · have hn : 3 ≤ trend.length := by omega
    have hlen : (trend.drop (trend.length - 3)).length = 3 := by
      rw [List.length_drop]
      omega
    obtain ⟨a, b, c, habc⟩ := List.length_eq_three.mp hlen
    have e0 : trend[trend.length - 3]? = some a := by
      have hd := List.getElem?_drop trend (trend.length - 3) 0
      rw [habc] at hd
      simpa using hd.symm
    have e1 : trend[trend.length - 2]? = some b := by
      have hd := List.getElem?_drop trend (trend.length - 3) 1
      rw [habc] at hd
      have harith : trend.length - 3 + 1 = trend.length - 2 := by omega
      rw [harith] at hd
      simpa using hd.symm
    have e2 : trend[trend.length - 1]? = some c := by
      have hd := List.getElem?_drop trend (trend.length - 3) 2
      rw [habc] at hd
      have harith : trend.length - 3 + 2 = trend.length - 1 := by omega
      rw [harith] at hd
      simpa using hd.symm
    have elast : trend.getLast? = some c := by
      rw [List.getLast?_eq_getElem?]
      exact e2
    unfold calculateForecast forecastSpec
    rw [if_neg h, if_neg h]
    simp only [habc, elast, e0, e1, e2, List.map_cons, List.map_nil, List.length_cons,
      List.length_nil, deltaSum, Option.map_some', Option.getD_some]
    congr 1
    apply List.map_congr_left
    intro j hj
    congr 2
    push_cast
    ring_nf
